import Mathlib

/-
Verification of the quantized backreachability engine in `backreach.py`.

The core of the repository (class `State`, `State.get_predecessors`,
`State.backstep`, `State.get_dx_dy_qrange`, `backreach_single`) is embedded
shallowly below.  The external collaborator modules (the `Star`
linear-constraint geometry engine, the network decision function `get_cmd`,
the quantization configuration `Quanta`, the initial-cell predicate
`is_init_qx_qy`, and the dynamics matrix generator `get_time_elapse_mat`)
are not part of the core source; they are modelled at their interfaces as
parameters, following the spec's external-interface section.  Machine reals
(numpy floats) are modelled as rationals.
-/

namespace Backreach

attribute [local semireducible] Rat.mul Rat.add Rat.sub Rat.inv

/-- Modelled from the spec: a concrete range-space point of the geometry
provider, restricted to the coordinates the core reads (`Star.X_OWN`,
`Star.Y_OWN`, `Star.X_INT`; the intruder y-coordinate is fixed at zero). -/
structure Pt where
  xOwn : ℚ
  yOwn : ℚ
  xInt : ℚ
deriving DecidableEq

/-- Modelled from the spec: a direction vector over the star's range
variables, as built by `get_dx_dy_qrange` (only the three coordinates the
core ever sets are represented; all other entries are always zero). -/
structure StarVec where
  cXOwn : ℚ
  cYOwn : ℚ
  cXInt : ℚ
deriving DecidableEq

/-- Dot product of a direction vector with a point (`vec @ pt`). -/
def dot (v : StarVec) (p : Pt) : ℚ :=
  v.cXOwn * p.xOwn + v.cYOwn * p.yOwn + v.cXInt * p.xInt

/-- Negation of a direction vector (`-vec`). -/
def negVec (v : StarVec) : StarVec :=
  ⟨-v.cXOwn, -v.cYOwn, -v.cXInt⟩

/-- The direction vector for dx = x_int - x_own (backreach.py lines 283-285). -/
def dxVec : StarVec := ⟨-1, 0, 1⟩

/-- The direction vector for dy = 0 - y_own (backreach.py lines 293-296;
the Y_INT coordinate is always 0 so only Y_OWN is set). -/
def dyVec : StarVec := ⟨0, -1, 0⟩

/-- Modelled from the spec: the quantization configuration (`settings.Quanta`):
a positive position quantum and the 5-entry per-command heading quantum
delta table `cmd_quantum_list`. -/
structure Quanta where
  pos : ℚ
  cmdQuantumList : List Int
deriving DecidableEq

/-- Modelled from the spec: the geometry provider's polytope (`star.Star`).
The core reaches into the constraint representation only through the fields
`a_mat` and `b_vec` (backreach.py lines 171-172); the remaining constraint
data (the domain box and bounds) is opaque, kept in `box`. -/
structure Star (M V B : Type) where
  box : B
  a_mat : M
  b_vec : V
deriving DecidableEq

/-- Modelled from the spec: the bundle of external provider operations the
core calls: feasibility-witness query, directional optimization, coordinate
mapping, cell restriction (`util.make_qstar`), the dynamics matrix generator
(`dubins.get_time_elapse_mat`, second argument the time direction ±1), the
initial-polytope encoder (`dubins.init_to_constraints`), and a region
membership predicate giving the polytope's set of range points. -/
structure Geometry (M V B W : Type) where
  getTimeElapseMat : Int → Int → M
  matMulM : M → M → M
  matMulV : M → V → V
  isFeasible : Star M V B → Option W
  minimizeVec : Star M V B → StarVec → Pt
  makeQstar : Star M V B → Int × Int → Star M V B
  domainToRange : Star M V B → W → Pt
  memB : Pt → Star M V B → Bool
  initToConstraints : Int × Int → Int × Int → Int → Int → Int → Star M V B

/-- Modelled from the spec: the pure decision provider (`networks.get_cmd`):
(previous command, quantized dx, dy, heading level, own speed level,
intruder speed level) → advisory command code. -/
def Decision : Type := Int → Int → Int → Int → Int → Int → Int

/-- The symbolic state of the backreach container (backreach.py class
`State`, lines 24-51): quantization levels, command history
`alpha_prev_list`, the polytope, its domain feasibility witness, and the
diagnostic state id. -/
structure State (M V B W : Type) where
  qtheta1 : Int
  qv_own : Int
  qv_int : Int
  alpha_prev_list : List Int
  star : Star M V B
  domain_witness : W
  state_id : Nat
deriving DecidableEq

/-- `State.__init__` (backreach.py lines 36-51): stores the levels, starts a
one-element command history, queries feasibility and fails fatally
(modelled by `none`) if the polytope has no witness, then assigns a fresh
state id from the monotonic counter (threaded explicitly as `nid`). -/
def mkState {M V B W : Type} (G : Geometry M V B W) (alpha_prev qtheta1 qv_own qv_int : Int)
    (star : Star M V B) (nid : Nat) : Option (State M V B W × Nat) :=
  match G.isFeasible star with
  | none => none
  | some w =>
    some ({ qtheta1 := qtheta1, qv_own := qv_own, qv_int := qv_int,
            alpha_prev_list := [alpha_prev], star := star,
            domain_witness := w, state_id := nid }, nid + 1)

/-- `State.copy` (backreach.py lines 56-75): a deep copy with a fresh id
(`assign_state_id`, lines 148-152); when a replacement star and witness are
supplied they are swapped in after the copy (the source's star is set aside
during the deepcopy and restored afterwards, so its net state is unchanged). -/
def State.copy {M V B W : Type} (s : State M V B W) (nid : Nat)
    (newStar : Option (Star M V B × W)) : State M V B W × Nat :=
  match newStar with
  | none => ({ s with state_id := nid }, nid + 1)
  | some (nst, nw) =>
    ({ s with star := nst, domain_witness := nw, state_id := nid }, nid + 1)

/-- `State.backstep` (backreach.py lines 154-180): pick the command (the
last history entry backward, the supplied `forward_alpha_prev` forward),
assert 0 ≤ cmd ≤ 4 (fatal, modelled by `none`), multiply `a_mat` and
`b_vec` by the time-elapse matrix for direction -1 (backward) or 1
(forward), and subtract (backward) or add (forward) the per-command heading
quantum delta `Quanta.cmd_quantum_list[cmd]` from `qtheta1`.
An empty history makes the Python indexing `[-1]` fail fatally; that is
folded into the same `none` via the out-of-range default. -/
def State.backstep {M V B W : Type} (G : Geometry M V B W) (Q : Quanta) (s : State M V B W)
    (forward : Bool) (forward_alpha_prev : Int) : Option (State M V B W) :=
  let cmd := if forward then forward_alpha_prev else s.alpha_prev_list.getLastD (-1)
  if 0 ≤ cmd ∧ cmd ≤ 4 then
    let mat := G.getTimeElapseMat cmd (if forward then 1 else -1)
    let delta := Q.cmdQuantumList.getD cmd.toNat 0
    some { s with
           star := { s.star with a_mat := G.matMulM mat s.star.a_mat,
                                 b_vec := G.matMulV mat s.star.b_vec },
           qtheta1 := if forward then s.qtheta1 + delta else s.qtheta1 - delta }
  else
    none

/-- `State.get_dx_dy_qrange` (backreach.py lines 276-305): per axis,
minimize the displacement direction and its negation over the star, dot
the optimizing points back with the direction to get the real bounds, then
floor the minimum and ceil the maximum by the position quantum. -/
def State.get_dx_dy_qrange {M V B W : Type} (G : Geometry M V B W) (Q : Quanta)
    (s : State M V B W) : (Int × Int) × (Int × Int) :=
  let dx_min := dot dxVec (G.minimizeVec s.star dxVec)
  let dx_max := dot dxVec (G.minimizeVec s.star (negVec dxVec))
  let dy_min := dot dyVec (G.minimizeVec s.star dyVec)
  let dy_max := dot dyVec (G.minimizeVec s.star (negVec dyVec))
  ((⌊dx_min / Q.pos⌋, ⌈dx_max / Q.pos⌉), (⌊dy_min / Q.pos⌋, ⌈dy_max / Q.pos⌉))

/-- The inclusive integer range `[lo..hi]`, as iterated by
`range(lo, hi + 1)` in backreach.py lines 213-214. -/
def intRange (lo hi : Int) : List Int :=
  (List.range (hi + 1 - lo).toNat).map (fun (i : Nat) => lo + (i : Int))

/-- The quantized (dx, dy) cells enumerated by the nested loops of
backreach.py lines 213-219, in loop order, with scenario-initial cells
skipped (`is_init_qx_qy`, line 218). -/
def enumCells (initP : Int → Int → Bool) (dxr dyr : Int × Int) : List (Int × Int) :=
  ((intRange dxr.1 dxr.2).map
    (fun qdx => (intRange dyr.1 dyr.2).map (fun qdy => (qdx, qdy)))).flatten.filter
      (fun c => !(initP c.1 c.2))

/-- The decision-provider output sampled at a cell (backreach.py line 221):
`get_cmd(prev_cmd, qdx, qdy, qtheta1, qv_own, qv_int)` with the constants
taken from the stepped state (line 204). -/
def cellCmd {M V B W : Type} (D : Decision) (stepped : State M V B W) (prev_cmd : Int)
    (c : Int × Int) : Int :=
  D prev_cmd c.1 c.2 stepped.qtheta1 stepped.qv_own stepped.qv_int

/-- The cells whose sampled decision output equals the state's most recent
command (`correct_qstates`, backreach.py lines 225-227). -/
def matchCells {M V B W : Type} (D : Decision) (stepped : State M V B W) (prev_cmd : Int)
    (cells : List (Int × Int)) : List (Int × Int) :=
  cells.filter (fun c => cellCmd D stepped prev_cmd c == stepped.alpha_prev_list.getLastD (-1))

/-- The cells whose sampled decision output differs from the state's most
recent command (`incorrect_qstates`, backreach.py lines 229-231). -/
def mismatchCells {M V B W : Type} (D : Decision) (stepped : State M V B W) (prev_cmd : Int)
    (cells : List (Int × Int)) : List (Int × Int) :=
  cells.filter (fun c => !(cellCmd D stepped prev_cmd c == stepped.alpha_prev_list.getLastD (-1)))

/-- The `prev_s = self.copy(...)` followed by
`prev_s.alpha_prev_list.append(prev_cmd)` idiom of backreach.py lines
239-240, 257-258 and 269-270. -/
def copyAppend {M V B W : Type} (s : State M V B W) (nid : Nat)
    (newStar : Option (Star M V B × W)) (prev_cmd : Int) : State M V B W :=
  let r := s.copy nid newStar
  { r.1 with alpha_prev_list := r.1.alpha_prev_list ++ [prev_cmd] }

/-- The splitting loop of backreach.py lines 264-272: for each matching
cell in order, restrict the star to the cell, and when the restriction is
feasible emit a copy carrying the restricted star, its witness, and the
candidate command appended; infeasible restrictions are silently dropped.
The fresh-id counter is threaded through the copies. -/
def splitLoop {M V B W : Type} (G : Geometry M V B W) (stepped : State M V B W)
    (prev_cmd : Int) : List (Int × Int) → Nat → List (State M V B W) × Nat
  | [], nid => ([], nid)
  | c :: rest, nid =>
    let star := G.makeQstar stepped.star c
    match G.isFeasible star with
    | none => splitLoop G stepped prev_cmd rest nid
    | some w =>
      let pr := copyAppend stepped nid (some (star, w)) prev_cmd
      let r := splitLoop G stepped prev_cmd rest (nid + 1)
      (pr :: r.1, r.2)

/-- The body of the `for prev_cmd in range(5)` loop of backreach.py lines
206-272: partition the sampled cells into matches and mismatches, then
apply the four-case decision policy (all wrong → nothing; all right → one
unrestricted predecessor; all mismatching cells infeasible → one
unrestricted predecessor; otherwise split over the matching cells).
The `break` in the feasibility scan of lines 248-253 is early exit of the
same conjunction computed by `List.all`. -/
def predsForCmd {M V B W : Type} (G : Geometry M V B W) (D : Decision)
    (stepped : State M V B W) (cells : List (Int × Int)) (prev_cmd : Int) (nid : Nat) :
    List (State M V B W) × Nat :=
  if (matchCells D stepped prev_cmd cells).isEmpty then
    ([], nid)
  else if (mismatchCells D stepped prev_cmd cells).isEmpty then
    ([copyAppend stepped nid none prev_cmd], nid + 1)
  else if (mismatchCells D stepped prev_cmd cells).all
      (fun c => (G.isFeasible (G.makeQstar stepped.star c)).isNone) then
    ([copyAppend stepped nid none prev_cmd], nid + 1)
  else
    splitLoop G stepped prev_cmd (matchCells D stepped prev_cmd cells) nid

/-- Iteration of `predsForCmd` over the candidate previous commands, in
ascending order, accumulating the emitted predecessors (`rv`) and threading
the fresh-id counter. -/
def runCmds {M V B W : Type} (G : Geometry M V B W) (D : Decision)
    (stepped : State M V B W) (cells : List (Int × Int)) :
    List Int → Nat → List (State M V B W) × Nat
  | [], nid => ([], nid)
  | pc :: rest, nid =>
    let r1 := predsForCmd G D stepped cells pc nid
    let r2 := runCmds G D stepped cells rest r1.2
    (r1.1 ++ r2.1, r2.2)

/-- `State.get_predecessors` (backreach.py lines 183-274): backstep once
(fatal when the most recent command is out of range), recompute the
quantized (dx, dy) range on the stepped polytope, enumerate the non-initial
cells, and run the per-command classification for the five candidate
previous commands.  The first `get_dx_dy_qrange` call of line 187 is dead
(its result is overwritten on line 196 before use) and the
`qstate_to_cmd` dictionary of line 207 is never read; both are omitted.
The plotting parameters are external and omitted. -/
def State.get_predecessors {M V B W : Type} (G : Geometry M V B W) (Q : Quanta)
    (D : Decision) (initP : Int → Int → Bool) (s : State M V B W) (nid : Nat) :
    Option (List (State M V B W) × Nat) :=
  match s.backstep G Q false (-1) with
  | none => none
  | some stepped =>
    let qr := stepped.get_dx_dy_qrange G Q
    let cells := enumCells initP qr.1 qr.2
    some (runCmds G D stepped cells [0, 1, 2, 3, 4] nid)

/-- The two most recent commands of a history, Python `(l[-2], l[-1])`;
`none` models the fatal `IndexError` when the history has fewer than two
entries (backreach.py line 356). -/
def last2 (l : List Int) : Option (Int × Int) :=
  match l.reverse with
  | a :: b :: _ => some (b, a)
  | _ => none

/-- The counterexample condition tested on each produced predecessor
(backreach.py lines 356-365): the two most recent commands are both 0
(clear) and the witness point, mapped to range coordinates, gives squared
separation dx² + dy² strictly greater than 10000². -/
def isCexB {M V B W : Type} (G : Geometry M V B W) (p : State M V B W) : Bool :=
  match last2 p.alpha_prev_list with
  | none => false
  | some (b, a) =>
    b == 0 && a == 0 &&
      (let pt := G.domainToRange p.star p.domain_witness
       let dx := pt.xInt - pt.xOwn
       let dy := 0 - pt.yOwn
       decide (dx ^ 2 + dy ^ 2 > 10000 ^ 2))

/-- Outcome of pushing one popped state's predecessors onto the frontier:
a fatal history-indexing error, a found counterexample (with the frontier
as mutated so far), or the updated frontier. -/
inductive PredOutcome (M V B W : Type) where
  | fatal : PredOutcome M V B W
  | found : State M V B W → List (State M V B W) → PredOutcome M V B W
  | pushed : List (State M V B W) → PredOutcome M V B W
deriving DecidableEq

/-- The `for p in predecessors` loop of backreach.py lines 353-374: push
each predecessor onto the frontier (head = top of stack), read its two most
recent commands (fatal if fewer than two), and on the first predecessor
with both commands 0 and witness separation beyond the safety radius stop
with that predecessor as the counterexample. -/
def processPreds {M V B W : Type} (G : Geometry M V B W) (stack : List (State M V B W)) :
    List (State M V B W) → PredOutcome M V B W
  | [] => .pushed stack
  | p :: rest =>
    match last2 p.alpha_prev_list with
    | none => .fatal
    | some (b, a) =>
      if b == 0 && a == 0 then
        let pt := G.domainToRange p.star p.domain_witness
        let dx := pt.xInt - pt.xOwn
        let dy := 0 - pt.yOwn
        if dx ^ 2 + dy ^ 2 > 10000 ^ 2 then .found p (p :: stack)
        else processPreds G (p :: stack) rest
      else processPreds G (p :: stack) rest

/-- The summary part of a `BackreachResult`: the (deep-copied, detached)
counterexample, the pop counter, and the distinct dead-end path count. -/
structure SearchOutcome (M V B W : Type) where
  counterexample : Option (State M V B W)
  num_popped : Nat
  unique_paths : Nat
deriving DecidableEq

/-- The `while work and rv['counterexample'] is None` loop of backreach.py
lines 347-377 plus the final count assembly of lines 381-382, with explicit
fuel for termination (`none` on fuel exhaustion models non-termination,
outside the claims; `none` is also the fatal assertion path).  A popped
state with no predecessors records its command history in the dead-end set. -/
def searchLoop {M V B W : Type} (G : Geometry M V B W) (Q : Quanta) (D : Decision)
    (initP : Int → Int → Bool) :
    Nat → List (State M V B W) → Nat → Finset (List Int) → Nat →
      Option (SearchOutcome M V B W)
  | 0, _, _, _, _ => none
  | _ + 1, [], popped, dead, _ => some ⟨none, popped, dead.card⟩
  | fuel + 1, s :: rest, popped, dead, nid =>
    match s.get_predecessors G Q D initP nid with
    | none => none
    | some (preds, nid2) =>
      match processPreds G rest preds with
      | .fatal => none
      | .found p _ => some ⟨some p, popped + 1, dead.card⟩
      | .pushed stack2 =>
        let dead2 := if preds.isEmpty then insert s.alpha_prev_list dead else dead
        searchLoop G Q D initP fuel stack2 (popped + 1) dead2 nid2

/-- The scenario parameter tuple (backreach.py line 325):
`(init_alpha_prev, x_own, y_own, theta1, v_own, v_int)` with the own
position components being quantized intervals. -/
structure SearchParams where
  init_alpha_prev : Int
  x_own : Int × Int
  y_own : Int × Int
  theta1 : Int
  v_own : Int
  v_int : Int
deriving DecidableEq

/-- The `BackreachResult` record (backreach.py lines 307-313) without the
wall-clock `runtime` field, which is real time and outside the model. -/
structure BackreachResult (M V B W : Type) where
  counterexample : Option (State M V B W)
  num_popped : Nat
  unique_paths : Nat
  index : Nat
  params : SearchParams
deriving DecidableEq

/-- `backreach_single` with `parallel=False` (backreach.py lines 315-387):
index 0, encode the scenario into the initial star, construct the initial
state (fatal when infeasible), run the depth-first loop, and assemble the
result record.  The parallel-only shared-counter side effects of lines
368-372 and 384-385 are external and omitted. -/
def backreach_single {M V B W : Type} (G : Geometry M V B W) (Q : Quanta) (D : Decision)
    (initP : Int → Int → Bool) (fuel : Nat) (params : SearchParams) :
    Option (BackreachResult M V B W) :=
  let star0 := G.initToConstraints params.x_own params.y_own params.v_own params.v_int
      params.theta1
  match mkState G params.init_alpha_prev params.theta1 params.v_own params.v_int star0 0 with
  | none => none
  | some (init_s, nid) =>
    match searchLoop G Q D initP fuel [init_s] 0 ∅ nid with
    | none => none
    | some o => some ⟨o.counterexample, o.num_popped, o.unique_paths, 0, params⟩

/-- Modelled from the spec: the quantized cell containing a concrete range
point, under the floor convention used by the replay code (backreach.py
lines 116-117) and by `util.make_qstar`'s cell bounds. -/
def cellOfQuantum (q : ℚ) (p : Pt) : Int × Int :=
  (⌊(p.xInt - p.xOwn) / q⌋, ⌊(0 - p.yOwn) / q⌋)

/-- Modelled from the spec: the set of objective values of the polytope's
member points along a direction, over which the geometry provider's
directional optimization ranges. -/
def dotSet {M V B W : Type} (G : Geometry M V B W) (st : Star M V B) (v : StarVec) : Set ℚ :=
  { x | ∃ p, G.memB p st = true ∧ dot v p = x }

/-- Soundness of the geometry provider's directional optimization at a
star and direction: the returned point is a member of the polytope and
minimizes the direction's objective over the members. -/
def MinVecSound {M V B W : Type} (G : Geometry M V B W) (st : Star M V B) (v : StarVec) : Prop :=
  G.memB (G.minimizeVec st v) st = true ∧
    ∀ p, G.memB p st = true → dot v (G.minimizeVec st v) ≤ dot v p

/-- A concrete executable geometry instance used to evaluate the embedded
operations: a polytope is a finite list of range points (its `box`), the
constraint matrices are trivial, feasibility returns the first point,
directional optimization scans the list, cell restriction filters by
`cellOfQuantum`, and domain and range coordinates coincide. -/
def listArgmin (f : Pt → ℚ) : List Pt → Pt
  | [] => ⟨0, 0, 0⟩
  | [p] => p
  | p :: q :: rest =>
    let r := listArgmin f (q :: rest)
    if f p ≤ f r then p else r

/-- The list-based concrete geometry instance at position quantum `q`
(see `listArgmin`). -/
def listGeom (q : ℚ) : Geometry Unit Unit (List Pt) Pt where
  getTimeElapseMat _ _ := ()
  matMulM _ _ := ()
  matMulV _ _ := ()
  isFeasible st := st.box.head?
  minimizeVec st v := listArgmin (dot v) st.box
  makeQstar st c := { st with box := st.box.filter (fun p => cellOfQuantum q p == c) }
  domainToRange _ w := w
  memB p st := st.box.any (fun x => x == p)
  initToConstraints _ _ _ _ _ := ⟨[⟨0, 0, 0⟩], (), ()⟩

/-- View of a predecessor state keeping the fields that the classification
policy determines (polytope, witness, command history), dropping the
diagnostic id. -/
def predView {M V B W : Type} (p : State M V B W) : Star M V B × W × List Int :=
  (p.star, p.domain_witness, p.alpha_prev_list)

/-- A quantization configuration for concrete evaluation: position quantum
1, zero heading deltas. -/
def exQ : Quanta := ⟨1, [0, 0, 0, 0, 0]⟩

/-- A decision provider for concrete evaluation: always issue command 0. -/
def exD : Decision := fun _ _ _ _ _ _ => 0

/-- The concrete list-based geometry at quantum 1. -/
def exG : Geometry Unit Unit (List Pt) Pt := listGeom 1

/-- A concrete point lying in cell (0, 0). -/
def c3pt0 : Pt := ⟨0, 0, 1/2⟩

/-- A concrete point lying in cell (1, 1). -/
def c3pt1 : Pt := ⟨0, -3/2, 3/2⟩

/-- A two-point concrete polytope spanning cells (0,0) and (1,1). -/
def c3star : Star Unit Unit (List Pt) := ⟨[c3pt0, c3pt1], (), ()⟩

/-- An initial-cell predicate flagging exactly cell (0, 0). -/
def c3initP : Int → Int → Bool := fun a b => a == 0 && b == 0

/-- A concrete state over `c3star` with history [0]. -/
def c3s : State Unit Unit (List Pt) Pt :=
  { qtheta1 := 0, qv_own := 0, qv_int := 0, alpha_prev_list := [0],
    star := c3star, domain_witness := c3pt0, state_id := 0 }

/-- The backward-stepped image of `c3s` under the concrete providers. -/
def c3stepped : State Unit Unit (List Pt) Pt :=
  (c3s.backstep exG exQ false (-1)).getD c3s

/-- The predecessors of `c3s` under the concrete providers. -/
def c3pair : List (State Unit Unit (List Pt) Pt) × Nat :=
  (c3s.get_predecessors exG exQ exD c3initP 0).getD ([], 0)

/-- A concrete point at separation 20000 from the own position. -/
def c2pt : Pt := ⟨0, 0, 20000⟩

/-- A one-point concrete polytope at unsafe separation. -/
def c2star : Star Unit Unit (List Pt) := ⟨[c2pt], (), ()⟩

/-- An initial-cell predicate flagging no cell. -/
def c2initP : Int → Int → Bool := fun _ _ => false

/-- A concrete state over `c2star` with history [0]. -/
def c2s : State Unit Unit (List Pt) Pt :=
  { qtheta1 := 0, qv_own := 0, qv_int := 0, alpha_prev_list := [0],
    star := c2star, domain_witness := c2pt, state_id := 0 }

/-- The predecessors of `c2s` under the concrete providers. -/
def c2pair : List (State Unit Unit (List Pt) Pt) × Nat :=
  (c2s.get_predecessors exG exQ exD c2initP 0).getD ([], 0)

/-- A concrete scenario parameter tuple. -/
def c4params : SearchParams := ⟨0, (0, 0), (0, 0), 0, 0, 0⟩

/-- An initial-cell predicate flagging every cell, making every scenario an
immediate dead end. -/
def c4initP : Int → Int → Bool := fun _ _ => true

/-- The result of the concrete exhausted search run. -/
def c4res : BackreachResult Unit Unit (List Pt) Pt := ⟨none, 1, 1, 0, c4params⟩

/-- A one-point concrete polytope for the construction claims. -/
def c5star : Star Unit Unit (List Pt) := ⟨[⟨0, 0, 0⟩], (), ()⟩

/-- The empty (infeasible) concrete polytope. -/
def c6empty : Star Unit Unit (List Pt) := ⟨[], (), ()⟩

/-- A quantization configuration with five distinct heading deltas. -/
def c7Q : Quanta := ⟨1, [10, 20, 30, 40, 50]⟩

/-- A concrete state with history [2] for the backstep claim. -/
def c7s : State Unit Unit (List Pt) Pt :=
  { qtheta1 := 100, qv_own := 1, qv_int := 2, alpha_prev_list := [2],
    star := c5star, domain_witness := ⟨0, 0, 0⟩, state_id := 0 }

/-- A one-point concrete polytope for the range-optimization claim. -/
def c8pt : Pt := ⟨0, 0, 3/2⟩

/-- See `c8pt`. -/
def c8star : Star Unit Unit (List Pt) := ⟨[c8pt], (), ()⟩

/-- A concrete state over `c8star`. -/
def c8s : State Unit Unit (List Pt) Pt :=
  { qtheta1 := 0, qv_own := 0, qv_int := 0, alpha_prev_list := [0],
    star := c8star, domain_witness := c8pt, state_id := 0 }

/-- Membership in the inclusive integer range. -/
lemma mem_intRange {lo hi k : Int} : k ∈ intRange lo hi ↔ lo ≤ k ∧ k ≤ hi := by
  unfold intRange
  constructor
  · intro hk
    obtain ⟨i, hi2, hk⟩ := List.mem_map.mp hk
    have hlt := List.mem_range.mp hi2
    omega
  · rintro ⟨h1, h2⟩
    exact List.mem_map.mpr ⟨(k - lo).toNat, List.mem_range.mpr (by omega), by omega⟩

/-- Every enumerated cell fails the initial-cell predicate. -/
lemma enumCells_not_init {initP : Int → Int → Bool} {dxr dyr : Int × Int} {c : Int × Int}
    (hc : c ∈ enumCells initP dxr dyr) : initP c.1 c.2 = false := by
  unfold enumCells at hc
  have := List.of_mem_filter hc
  simpa using this

/-- Matching cells are enumerated cells. -/
lemma matchCells_subset {M V B W : Type} {D : Decision} {stepped : State M V B W}
    {prev_cmd : Int} {cells : List (Int × Int)} {c : Int × Int}
    (hc : c ∈ matchCells D stepped prev_cmd cells) : c ∈ cells :=
  List.mem_of_mem_filter hc

/-- A successful backward step leaves the command history, witness and
speed levels unchanged and certifies that the history is non-empty with an
in-range most recent command. -/
lemma backstep_backward_elim {M V B W : Type} {G : Geometry M V B W} {Q : Quanta}
    {s t : State M V B W} (h : s.backstep G Q false (-1) = some t) :
    t.alpha_prev_list = s.alpha_prev_list ∧ s.alpha_prev_list ≠ [] ∧
    t.qv_own = s.qv_own ∧ t.qv_int = s.qv_int ∧ t.domain_witness = s.domain_witness ∧
    0 ≤ s.alpha_prev_list.getLastD (-1) ∧ s.alpha_prev_list.getLastD (-1) ≤ 4 := by
  unfold State.backstep at h
  simp only [Bool.false_eq_true, if_false, ite_false] at h
  split at h
  · rename_i hguard
    cases h
    refine ⟨rfl, ?_, rfl, rfl, rfl, hguard.1, hguard.2⟩
    intro hnil
    rw [hnil] at hguard
    simp [List.getLastD] at hguard
  · exact absurd h (by simp)

/-- The second-to-last and last commands of a history extended by one
element exist whenever the original history is non-empty. -/
lemma last2_append {l : List Int} (x : Int) (hl : l ≠ []) :
    (last2 (l ++ [x])).isSome = true := by
  unfold last2
  rw [List.reverse_append]
  rcases hr : l.reverse with _ | ⟨y, ys⟩
  · exact absurd (by simpa using congrArg List.reverse hr) hl
  · simp

/-- Characterization of the states produced by the splitting loop: each
carries the candidate command appended to the stepped state's history, the
stepped state's levels, and a feasible cell restriction of the stepped
star, for a cell of the scanned list. -/
lemma mem_splitLoop {M V B W : Type} {G : Geometry M V B W} {stepped : State M V B W}
    {pc : Int} :
    ∀ {l : List (Int × Int)} {nid : Nat} {p : State M V B W},
      p ∈ (splitLoop G stepped pc l nid).1 →
      p.alpha_prev_list = stepped.alpha_prev_list ++ [pc] ∧
      p.qtheta1 = stepped.qtheta1 ∧ p.qv_own = stepped.qv_own ∧ p.qv_int = stepped.qv_int ∧
      ∃ c ∈ l, ∃ w, G.isFeasible (G.makeQstar stepped.star c) = some w ∧
        p.star = G.makeQstar stepped.star c ∧ p.domain_witness = w := by
  intro l
  induction l with
  | nil =>
    intro nid p hp
    simp [splitLoop] at hp
  | cons c rest ih =>
    intro nid p hp
    rcases hf : G.isFeasible (G.makeQstar stepped.star c) with _ | w
    · rw [show splitLoop G stepped pc (c :: rest) nid = splitLoop G stepped pc rest nid by
        simp [splitLoop, hf]] at hp
      obtain ⟨h1, h2, h3, h4, cc, hcc, hrest⟩ := ih hp
      exact ⟨h1, h2, h3, h4, cc, List.mem_cons_of_mem _ hcc, hrest⟩
    · rw [show splitLoop G stepped pc (c :: rest) nid =
          (copyAppend stepped nid (some (G.makeQstar stepped.star c, w)) pc
             :: (splitLoop G stepped pc rest (nid + 1)).1,
           (splitLoop G stepped pc rest (nid + 1)).2) by
        simp [splitLoop, hf]] at hp
      rcases List.mem_cons.mp hp with rfl | hp2
      · exact ⟨rfl, rfl, rfl, rfl, c, List.mem_cons_self _ _, w, hf, rfl, rfl⟩
      · obtain ⟨h1, h2, h3, h4, cc, hcc, hrest⟩ := ih hp2
        exact ⟨h1, h2, h3, h4, cc, List.mem_cons_of_mem _ hcc, hrest⟩

/-- Characterization of the states produced for one candidate previous
command: each carries the candidate appended to the stepped state's
history, the stepped state's levels, and either the unrestricted stepped
star or a cell restriction at a matching cell. -/
lemma mem_predsForCmd {M V B W : Type} {G : Geometry M V B W} {D : Decision}
    {stepped : State M V B W} {cells : List (Int × Int)} {pc : Int} {nid : Nat}
    {p : State M V B W} (hp : p ∈ (predsForCmd G D stepped cells pc nid).1) :
    p.alpha_prev_list = stepped.alpha_prev_list ++ [pc] ∧
    p.qtheta1 = stepped.qtheta1 ∧ p.qv_own = stepped.qv_own ∧ p.qv_int = stepped.qv_int ∧
    (p.star = stepped.star ∨
      ∃ c ∈ matchCells D stepped pc cells, p.star = G.makeQstar stepped.star c) := by
  unfold predsForCmd at hp
  split at hp
  · simp at hp
  · split at hp
    · rcases List.mem_singleton.mp hp with rfl
      exact ⟨rfl, rfl, rfl, rfl, Or.inl rfl⟩
    · split at hp
      · rcases List.mem_singleton.mp hp with rfl
        exact ⟨rfl, rfl, rfl, rfl, Or.inl rfl⟩
      · obtain ⟨h1, h2, h3, h4, c, hc, w, _, hstar, _⟩ := mem_splitLoop hp
        exact ⟨h1, h2, h3, h4, Or.inr ⟨c, hc, hstar⟩⟩

/-- Characterization of the predecessors accumulated over a list of
candidate commands. -/
lemma mem_runCmds {M V B W : Type} {G : Geometry M V B W} {D : Decision}
    {stepped : State M V B W} {cells : List (Int × Int)} :
    ∀ {cmds : List Int} {nid : Nat} {p : State M V B W},
      p ∈ (runCmds G D stepped cells cmds nid).1 →
      ∃ pc ∈ cmds, ∃ m, p ∈ (predsForCmd G D stepped cells pc m).1 := by
  intro cmds
  induction cmds with
  | nil =>
    intro nid p hp
    simp [runCmds] at hp
  | cons pc rest ih =>
    intro nid p hp
    simp only [runCmds] at hp
    rcases List.mem_append.mp hp with h1 | h2
    · exact ⟨pc, List.mem_cons_self _ _, nid, h1⟩
    · obtain ⟨pc2, hpc2, m, hm⟩ := ih h2
      exact ⟨pc2, List.mem_cons_of_mem _ hpc2, m, hm⟩

/-- Full elimination for `get_predecessors`: the call backsteps once and
every produced predecessor appends one in-range candidate command to the
(unchanged) history and is either unrestricted or restricted to an
enumerated non-initial cell. -/
lemma mem_get_predecessors {M V B W : Type} {G : Geometry M V B W} {Q : Quanta}
    {D : Decision} {initP : Int → Int → Bool} {s : State M V B W} {nid : Nat}
    {preds : List (State M V B W)} {nid2 : Nat}
    (h : s.get_predecessors G Q D initP nid = some (preds, nid2)) :
    ∃ stepped, s.backstep G Q false (-1) = some stepped ∧
      stepped.alpha_prev_list = s.alpha_prev_list ∧
      ∀ p ∈ preds, ∃ pc, pc ∈ ([0, 1, 2, 3, 4] : List Int) ∧
        p.alpha_prev_list = s.alpha_prev_list ++ [pc] ∧
        (p.star = stepped.star ∨
          ∃ c, initP c.1 c.2 = false ∧ p.star = G.makeQstar stepped.star c) := by
  unfold State.get_predecessors at h
  rcases hb : s.backstep G Q false (-1) with _ | stepped
  · rw [hb] at h
    simp at h
  · rw [hb] at h
    simp only [Option.some.injEq, Prod.mk.injEq] at h
    have hpreds : preds =
        (runCmds G D stepped
          (enumCells initP (stepped.get_dx_dy_qrange G Q).1 (stepped.get_dx_dy_qrange G Q).2)
          [0, 1, 2, 3, 4] nid).1 := by
      rw [h]
    have hsa := (backstep_backward_elim hb).1
    refine ⟨stepped, rfl, hsa, ?_⟩
    intro p hp
    rw [hpreds] at hp
    obtain ⟨pc, hpc, m, hm⟩ := mem_runCmds hp
    obtain ⟨h1, _, _, _, hstar⟩ := mem_predsForCmd hm
    refine ⟨pc, hpc, by rw [h1, hsa], ?_⟩
    rcases hstar with h2 | ⟨c, hc, h2⟩
    · exact Or.inl h2
    · exact Or.inr ⟨c, enumCells_not_init (matchCells_subset hc), h2⟩

/-- One unfolding step of `processPreds` when the head predecessor's two
most recent commands exist: the head is the found counterexample exactly
when it satisfies the counterexample condition, and otherwise scanning
continues with the head pushed. -/
lemma processPreds_cons {M V B W : Type} {G : Geometry M V B W}
    {stack : List (State M V B W)} {p : State M V B W} {rest : List (State M V B W)}
    {b a : Int} (hl : last2 p.alpha_prev_list = some (b, a)) :
    processPreds G stack (p :: rest) =
      if isCexB G p = true then .found p (p :: stack) else processPreds G (p :: stack) rest := by
  simp only [processPreds, isCexB, hl]
  cases hba : (b == 0 && a == 0)
  · simp
  · by_cases hsep :
      ((G.domainToRange p.star p.domain_witness).xInt -
          (G.domainToRange p.star p.domain_witness).xOwn) ^ 2 +
        (0 - (G.domainToRange p.star p.domain_witness).yOwn) ^ 2 > 10000 ^ 2
    · simp [hsep]
    · simp [hsep]

/-- If pushing a predecessor list yields a found counterexample, that
predecessor satisfies the counterexample condition and every predecessor
checked before it does not. -/
lemma processPreds_found_elim {M V B W : Type} {G : Geometry M V B W} :
    ∀ {ps : List (State M V B W)} {stack : List (State M V B W)} {q : State M V B W}
      {st : List (State M V B W)},
      processPreds G stack ps = .found q st →
      isCexB G q = true ∧ ∃ pre post, ps = pre ++ q :: post ∧ ∀ r ∈ pre, isCexB G r = false := by
  intro ps
  induction ps with
  | nil =>
    intro stack q st hp
    simp [processPreds] at hp
  | cons p rest ih =>
    intro stack q st hp
    rcases hl : last2 p.alpha_prev_list with _ | ⟨b, a⟩
    · simp only [processPreds, hl] at hp
      cases hp
    · rw [processPreds_cons hl] at hp
      split at hp
      · rename_i hcex
        cases hp
        exact ⟨hcex, [], rest, rfl, by simp⟩
      · rename_i hcex
        obtain ⟨hq, pre, post, heq, hpre⟩ := ih hp
        refine ⟨hq, p :: pre, post, by rw [heq]; rfl, ?_⟩
        intro r hr
        rcases List.mem_cons.mp hr with rfl | hr2
        · exact Bool.not_eq_true _ ▸ (Bool.of_not_eq_true hcex)
        · exact hpre r hr2

/-- Conversely, if a predecessor in the list satisfies the counterexample
condition and all predecessors before it do not, pushing the list finds
precisely that predecessor, whatever the current frontier. -/
lemma processPreds_found_intro {M V B W : Type} {G : Geometry M V B W} :
    ∀ (pre : List (State M V B W)) (q : State M V B W) (post stack : List (State M V B W)),
      (∀ r ∈ pre, isCexB G r = false) →
      (∀ p ∈ pre, (last2 p.alpha_prev_list).isSome = true) →
      isCexB G q = true →
      ∃ st, processPreds G stack (pre ++ q :: post) = .found q st := by
  intro pre
  induction pre with
  | nil =>
    intro q post stack _ _ hq
    rcases hl : last2 q.alpha_prev_list with _ | ⟨b, a⟩
    · simp only [isCexB, hl] at hq
      cases hq
    · refine ⟨q :: stack, ?_⟩
      rw [List.nil_append, processPreds_cons hl, if_pos hq]
  | cons r rest ih =>
    intro q post stack hpre hsome hq
    have hr : isCexB G r = false := hpre r (List.mem_cons_self _ _)
    have hrs := hsome r (List.mem_cons_self _ _)
    rcases hl : last2 r.alpha_prev_list with _ | ⟨b, a⟩
    · rw [hl] at hrs
      cases hrs
    · obtain ⟨st, hst⟩ := ih q post (r :: stack) (fun x hx => hpre x (List.mem_cons_of_mem _ hx))
        (fun x hx => hsome x (List.mem_cons_of_mem _ hx)) hq
      refine ⟨st, ?_⟩
      rw [List.cons_append, processPreds_cons hl, if_neg (by simp [hr]), hst]

/-- C6: constructing a State from an infeasible polytope (no feasibility
witness) fails fatally and unrecoverably (modelled by `none`); for every
feasible polytope, construction succeeds and stores the returned witness
point. -/
theorem C6_construct_feasibility {M V B W : Type} (G : Geometry M V B W)
    (a t vo vi : Int) (st : Star M V B) (nid : Nat) :
    (G.isFeasible st = none → mkState G a t vo vi st nid = none) ∧
    (∀ w, G.isFeasible st = some w →
      mkState G a t vo vi st nid =
        some ({ qtheta1 := t, qv_own := vo, qv_int := vi, alpha_prev_list := [a],
                star := st, domain_witness := w, state_id := nid }, nid + 1)) := by
  constructor
  · intro h
    simp [mkState, h]
  · intro w h
    simp [mkState, h]

/-- Witness for C6 at a concrete infeasible and a concrete feasible
polytope. -/
theorem C6_witness :
    mkState exG 0 0 0 0 c6empty 0 = none ∧
    mkState exG 0 0 0 0 c5star 0 =
      some ({ qtheta1 := 0, qv_own := 0, qv_int := 0, alpha_prev_list := [0],
              star := c5star, domain_witness := ⟨0, 0, 0⟩, state_id := 0 }, 1) :=
  ⟨(C6_construct_feasibility exG 0 0 0 0 c6empty 0).1 rfl,
   (C6_construct_feasibility exG 0 0 0 0 c5star 0).2 ⟨0, 0, 0⟩ rfl⟩

/-- C9: copy returns a new State with a fresh id, command history and
quantization levels equal in value to the source's; a supplied replacement
polytope and witness are swapped in, otherwise the source's polytope and
witness are cloned verbatim; the id counter advances by one.  (The
value-level embedding makes the deep copy's structural independence and
the preservation of the source automatic.) -/
theorem C9_copy_semantics {M V B W : Type} (s : State M V B W) (nid : Nat)
    (hfresh : s.state_id < nid) :
    ((s.copy nid none).1.alpha_prev_list = s.alpha_prev_list ∧
     (s.copy nid none).1.qtheta1 = s.qtheta1 ∧
     (s.copy nid none).1.qv_own = s.qv_own ∧
     (s.copy nid none).1.qv_int = s.qv_int ∧
     (s.copy nid none).1.star = s.star ∧
     (s.copy nid none).1.domain_witness = s.domain_witness ∧
     (s.copy nid none).1.state_id = nid ∧
     (s.copy nid none).1.state_id ≠ s.state_id ∧
     (s.copy nid none).2 = nid + 1) ∧
    (∀ (nst : Star M V B) (nw : W),
     (s.copy nid (some (nst, nw))).1.alpha_prev_list = s.alpha_prev_list ∧
     (s.copy nid (some (nst, nw))).1.qtheta1 = s.qtheta1 ∧
     (s.copy nid (some (nst, nw))).1.qv_own = s.qv_own ∧
     (s.copy nid (some (nst, nw))).1.qv_int = s.qv_int ∧
     (s.copy nid (some (nst, nw))).1.star = nst ∧
     (s.copy nid (some (nst, nw))).1.domain_witness = nw ∧
     (s.copy nid (some (nst, nw))).1.state_id = nid ∧
     (s.copy nid (some (nst, nw))).1.state_id ≠ s.state_id ∧
     (s.copy nid (some (nst, nw))).2 = nid + 1) := by
  refine ⟨⟨rfl, rfl, rfl, rfl, rfl, rfl, rfl, ?_, rfl⟩,
    fun nst nw => ⟨rfl, rfl, rfl, rfl, rfl, rfl, rfl, ?_, rfl⟩⟩ <;>
  · show nid ≠ s.state_id
    omega

/-- Witness for C9 at a concrete state and counter value. -/
theorem C9_witness :
    c3s.state_id < 1 ∧ (c3s.copy 1 none).1.state_id ≠ c3s.state_id :=
  ⟨by decide, (C9_copy_semantics c3s 1 (by decide)).1.2.2.2.2.2.2.2.1⟩

/-- C7: for a state whose most recent command c is in 0..4, the backward
step applies the transform for c at time direction -1 to the constraint
matrices and subtracts the per-command quantum delta at index c of the
5-entry table from the heading level; the forward variant applies the
direction 1 transform for the supplied command and adds the delta; a
command outside 0..4 fails fatally in either direction. -/
theorem C7_backstep_transform {M V B W : Type} (G : Geometry M V B W) (Q : Quanta)
    (s : State M V B W) (c : Int) (hc : s.alpha_prev_list.getLastD (-1) = c)
    (h0 : 0 ≤ c) (h4 : c ≤ 4) (h5 : Q.cmdQuantumList.length = 5) :
    (s.backstep G Q false (-1) =
      some { s with
             star := { s.star with
                       a_mat := G.matMulM (G.getTimeElapseMat c (-1)) s.star.a_mat,
                       b_vec := G.matMulV (G.getTimeElapseMat c (-1)) s.star.b_vec },
             qtheta1 := s.qtheta1 - Q.cmdQuantumList.getD c.toNat 0 }) ∧
    (∀ fc : Int, 0 ≤ fc → fc ≤ 4 →
      s.backstep G Q true fc =
        some { s with
               star := { s.star with
                         a_mat := G.matMulM (G.getTimeElapseMat fc 1) s.star.a_mat,
                         b_vec := G.matMulV (G.getTimeElapseMat fc 1) s.star.b_vec },
               qtheta1 := s.qtheta1 + Q.cmdQuantumList.getD fc.toNat 0 }) ∧
    (∀ fc : Int, fc < 0 ∨ 4 < fc → s.backstep G Q true fc = none) ∧
    (∀ s2 : State M V B W,
      s2.alpha_prev_list.getLastD (-1) < 0 ∨ 4 < s2.alpha_prev_list.getLastD (-1) →
      s2.backstep G Q false (-1) = none) := by
  have hc2 : s.alpha_prev_list.getLast?.getD (-1) = c := by
    rw [← List.getLastD_eq_getLast?]
    exact hc
  refine ⟨?_, ?_, ?_, ?_⟩
  · simp [State.backstep, hc2, h0, h4]
  · intro fc hf0 hf4
    simp [State.backstep, hf0, hf4]
  · intro fc hfc
    have hn : ¬(0 ≤ fc ∧ fc ≤ 4) := by omega
    simp [State.backstep, hn]
  · intro s2 hs2
    rw [List.getLastD_eq_getLast?] at hs2
    simp only [State.backstep]
    simp
    omega

/-- Witness for C7 at a concrete state with most recent command 2 and a
concrete 5-entry delta table. -/
theorem C7_witness :
    c7s.alpha_prev_list.getLastD (-1) = 2 ∧ c7Q.cmdQuantumList.length = 5 ∧
    c7s.backstep exG c7Q false (-1) =
      some { c7s with
             star := { c7s.star with
                       a_mat := exG.matMulM (exG.getTimeElapseMat 2 (-1)) c7s.star.a_mat,
                       b_vec := exG.matMulV (exG.getTimeElapseMat 2 (-1)) c7s.star.b_vec },
             qtheta1 := c7s.qtheta1 - c7Q.cmdQuantumList.getD (2 : Int).toNat 0 } :=
  ⟨rfl, rfl,
   (C7_backstep_transform exG c7Q c7s 2 rfl (by decide) (by decide) rfl).1⟩

/-- C4: for fixed providers and a fixed scenario parameter tuple, two
sequential runs of the search produce identical num_popped and
unique_paths counts. -/
theorem C4_sequential_determinism {M V B W : Type} (G : Geometry M V B W) (Q : Quanta)
    (D : Decision) (initP : Int → Int → Bool) (fuel : Nat) (params : SearchParams)
    (r1 r2 : BackreachResult M V B W)
    (h1 : backreach_single G Q D initP fuel params = some r1)
    (h2 : backreach_single G Q D initP fuel params = some r2) :
    r1.num_popped = r2.num_popped ∧ r1.unique_paths = r2.unique_paths := by
  rw [h1] at h2
  cases h2
  exact ⟨rfl, rfl⟩

/-- Witness for C4 at a concrete terminating scenario. -/
theorem C4_witness :
    backreach_single exG exQ exD c4initP 3 c4params = some c4res ∧
    c4res.num_popped = c4res.num_popped ∧ c4res.unique_paths = c4res.unique_paths :=
  ⟨by decide,
   C4_sequential_determinism exG exQ exD c4initP 3 c4params c4res c4res
     (by decide) (by decide)⟩

/-- C10: every predecessor returned by get_predecessors has a command
history exactly one element longer than the receiving state's, hence of
length at least 2, so the search driver's read of the predecessor's
second-to-last command is in bounds. -/
theorem C10_history_length {M V B W : Type} (G : Geometry M V B W) (Q : Quanta)
    (D : Decision) (initP : Int → Int → Bool) (s : State M V B W) (nid : Nat)
    (preds : List (State M V B W)) (nid2 : Nat)
    (h : s.get_predecessors G Q D initP nid = some (preds, nid2)) :
    ∀ p ∈ preds, p.alpha_prev_list.length = s.alpha_prev_list.length + 1 ∧
      2 ≤ p.alpha_prev_list.length ∧ (last2 p.alpha_prev_list).isSome = true := by
  obtain ⟨stepped, hb, hsa, hmem⟩ := mem_get_predecessors h
  have hne : s.alpha_prev_list ≠ [] := (backstep_backward_elim hb).2.1
  have hlen : 0 < s.alpha_prev_list.length := List.length_pos.mpr hne
  intro p hp
  obtain ⟨pc, _, hal, _⟩ := hmem p hp
  refine ⟨by rw [hal, List.length_append]; rfl, ?_, ?_⟩
  · rw [hal, List.length_append]
    simp only [List.length_singleton]
    omega
  · rw [hal]
    exact last2_append pc hne

/-- Witness for C10 at a concrete predecessor generation. -/
theorem C10_witness :
    c3s.get_predecessors exG exQ exD c3initP 0 = some c3pair ∧
    ∀ p ∈ c3pair.1, p.alpha_prev_list.length = c3s.alpha_prev_list.length + 1 ∧
      2 ≤ p.alpha_prev_list.length ∧ (last2 p.alpha_prev_list).isSome = true :=
  ⟨by decide,
   C10_history_length exG exQ exD c3initP c3s 0 c3pair.1 c3pair.2 (by decide)⟩

/-- Dotting with a negated direction negates the objective. -/
lemma dot_negVec (v : StarVec) (p : Pt) : dot (negVec v) p = -(dot v p) := by
  unfold dot negVec
  ring

/-- A non-nil list is not isEmpty. -/
lemma isEmpty_false_of_ne_nil {α : Type} {l : List α} (h : l ≠ []) : l.isEmpty = false := by
  cases l
  · exact absurd rfl h
  · rfl

/-- The unrestricted copy-append produces the stepped state with the
candidate appended and the fresh id. -/
lemma copyAppend_none {M V B W : Type} (s : State M V B W) (nid : Nat) (pc : Int) :
    copyAppend s nid none pc =
      { s with alpha_prev_list := s.alpha_prev_list ++ [pc], state_id := nid } := rfl

/-- The splitting loop, viewed without ids, is exactly the feasibility
filter-map over the scanned cells. -/
lemma splitLoop_view {M V B W : Type} {G : Geometry M V B W} {stepped : State M V B W}
    {pc : Int} :
    ∀ (l : List (Int × Int)) (nid : Nat),
      ((splitLoop G stepped pc l nid).1).map predView =
        l.filterMap (fun c => (G.isFeasible (G.makeQstar stepped.star c)).map
          (fun w => (G.makeQstar stepped.star c, w, stepped.alpha_prev_list ++ [pc]))) := by
  intro l
  induction l with
  | nil =>
    intro nid
    simp [splitLoop]
  | cons c rest ih =>
    intro nid
    rcases hf : G.isFeasible (G.makeQstar stepped.star c) with _ | w
    · simp [splitLoop, hf, ih]
    · simp [splitLoop, hf, ih, predView, copyAppend, State.copy]

/-- Every member of the singleton concrete polytope is its point. -/
lemma c8mem {p : Pt} (hp : exG.memB p c8star = true) : p = c8pt := by
  simp only [exG, listGeom, c8star, c8pt, List.any_cons, List.any_nil, Bool.or_false,
    beq_iff_eq] at hp
  exact hp.symm

/-- The concrete geometry's directional optimization is sound at the
singleton polytope, for every direction. -/
lemma c8minsound (v : StarVec) : MinVecSound exG c8star v := by
  constructor
  · exact (by decide : exG.memB c8pt c8star = true)
  · intro p hp
    rw [c8mem hp]
    exact le_of_eq rfl

/-- The singleton polytope's objective value is the least of its objective
set, for every direction. -/
lemma c8least (v : StarVec) : IsLeast (dotSet exG c8star v) (dot v c8pt) := by
  constructor
  · exact ⟨c8pt, by decide, rfl⟩
  · rintro x ⟨p, hp, rfl⟩
    rw [c8mem hp]

/-- The singleton polytope's objective value is the greatest of its
objective set, for every direction. -/
lemma c8greatest (v : StarVec) : IsGreatest (dotSet exG c8star v) (dot v c8pt) := by
  constructor
  · exact ⟨c8pt, by decide, rfl⟩
  · rintro x ⟨p, hp, rfl⟩
    rw [c8mem hp]

/-- C5 (amended; counterexample `C5_range_counterexample`): command
histories are non-empty at all times and operations only append to or
preserve them: construction establishes the one-element history of the
given command, copy and backstep preserve the history, every predecessor
appends a single command in 0..4, and all stored codes lie in 0..4
whenever the codes of the source state do.  (Construction itself does not
validate its command, so the range invariant is conditional on the initial
command.) -/
theorem C5_history_invariant {M V B W : Type} (G : Geometry M V B W) (Q : Quanta)
    (D : Decision) (initP : Int → Int → Bool) :
    (∀ (a t vo vi : Int) (st : Star M V B) (nid : Nat) (out : State M V B W × Nat),
      mkState G a t vo vi st nid = some out → out.1.alpha_prev_list = [a]) ∧
    (∀ (s : State M V B W) (nid : Nat) (o : Option (Star M V B × W)),
      (s.copy nid o).1.alpha_prev_list = s.alpha_prev_list) ∧
    (∀ (s t : State M V B W) (f : Bool) (fc : Int),
      s.backstep G Q f fc = some t → t.alpha_prev_list = s.alpha_prev_list) ∧
    (∀ (s : State M V B W) (nid : Nat) (preds : List (State M V B W)) (nid2 : Nat),
      s.get_predecessors G Q D initP nid = some (preds, nid2) →
      ∀ p ∈ preds, ∃ pc, 0 ≤ pc ∧ pc ≤ 4 ∧
        p.alpha_prev_list = s.alpha_prev_list ++ [pc]) ∧
    (∀ (s : State M V B W) (nid : Nat) (preds : List (State M V B W)) (nid2 : Nat),
      s.get_predecessors G Q D initP nid = some (preds, nid2) →
      (∀ c ∈ s.alpha_prev_list, 0 ≤ c ∧ c ≤ 4) →
      ∀ p ∈ preds, p.alpha_prev_list ≠ [] ∧ ∀ c ∈ p.alpha_prev_list, 0 ≤ c ∧ c ≤ 4) := by
  have hpred : ∀ (s : State M V B W) (nid : Nat) (preds : List (State M V B W)) (nid2 : Nat),
      s.get_predecessors G Q D initP nid = some (preds, nid2) →
      ∀ p ∈ preds, ∃ pc, 0 ≤ pc ∧ pc ≤ 4 ∧
        p.alpha_prev_list = s.alpha_prev_list ++ [pc] := by
    intro s nid preds nid2 h p hp
    obtain ⟨stepped, _, _, hmem⟩ := mem_get_predecessors h
    obtain ⟨pc, hpc, hal, _⟩ := hmem p hp
    have hb : pc = 0 ∨ pc = 1 ∨ pc = 2 ∨ pc = 3 ∨ pc = 4 := by simpa using hpc
    refine ⟨pc, ?_, ?_, hal⟩ <;> omega
  refine ⟨?_, ?_, ?_, hpred, ?_⟩
  · intro a t vo vi st nid out h
    unfold mkState at h
    split at h
    · cases h
    · cases h
      rfl
  · intro s nid o
    rcases o with _ | ⟨st, w⟩ <;> rfl
  · intro s t f fc h
    cases f
    · unfold State.backstep at h
      simp only [Bool.false_eq_true, if_false, ite_false] at h
      split at h
      · cases h
        rfl
      · cases h
    · unfold State.backstep at h
      simp only [eq_self_iff_true, if_true, ite_true] at h
      split at h
      · cases h
        rfl
      · cases h
  · intro s nid preds nid2 h hs p hp
    obtain ⟨pc, h0, h4, hal⟩ := hpred s nid preds nid2 h p hp
    constructor
    · rw [hal]
      simp
    · intro c hc
      rw [hal] at hc
      rcases List.mem_append.mp hc with hc1 | hc2
      · exact hs c hc1
      · rw [List.mem_singleton.mp hc2]
        exact ⟨h0, h4⟩

/-- Counterexample to C5 as stated: construction does not validate the
command code, so a State with stored command 5 (outside 0..4) is
constructible from a feasible polytope. -/
theorem C5_range_counterexample :
    (mkState exG 5 0 0 0 c5star 0).map (fun r => r.1.alpha_prev_list) = some [5] ∧
    ¬ ((5 : Int) ≤ 4) := by decide

/-- Witness for C5 at a concrete predecessor generation. -/
theorem C5_witness :
    c2s.get_predecessors exG exQ exD c2initP 0 = some c2pair ∧
    ∀ p ∈ c2pair.1, ∃ pc, 0 ≤ pc ∧ pc ≤ 4 ∧
      p.alpha_prev_list = c2s.alpha_prev_list ++ [pc] :=
  ⟨by decide,
   (C5_history_invariant exG exQ exD c2initP).2.2.2.1 c2s 0 c2pair.1 c2pair.2 (by decide)⟩

/-- C3 (amended; counterexample `C3_region_counterexample`): cells flagged
by the initial-cell predicate are excluded from enumeration and decision
sampling, and every geometrically restricted predecessor is restricted to
a non-initial cell; unrestricted predecessors (the all-match and
all-mismatch-infeasible cases) carry no cell restriction, so their region
may still contain points of initial cells. -/
theorem C3_initial_cells_excluded {M V B W : Type} (G : Geometry M V B W) (Q : Quanta)
    (D : Decision) (initP : Int → Int → Bool) :
    (∀ (dxr dyr : Int × Int) (c : Int × Int), c ∈ enumCells initP dxr dyr →
      initP c.1 c.2 = false) ∧
    (∀ (s stepped : State M V B W) (nid : Nat) (preds : List (State M V B W)) (nid2 : Nat),
      s.backstep G Q false (-1) = some stepped →
      s.get_predecessors G Q D initP nid = some (preds, nid2) →
      ∀ p ∈ preds, p.star = stepped.star ∨
        ∃ c, initP c.1 c.2 = false ∧ p.star = G.makeQstar stepped.star c) := by
  constructor
  · intro dxr dyr c hc
    exact enumCells_not_init hc
  · intro s stepped nid preds nid2 hb h p hp
    obtain ⟨stepped2, hb2, _, hmem⟩ := mem_get_predecessors h
    rw [hb] at hb2
    cases hb2
    obtain ⟨pc, _, _, hstar⟩ := hmem p hp
    exact hstar

/-- Counterexample to C3 as stated: with a two-point polytope spanning an
initial cell and a matching non-initial cell and an always-matching
decision function, every emitted predecessor is unrestricted and its
region still contains the point lying in the initial cell. -/
theorem C3_region_counterexample :
    (c3s.get_predecessors exG exQ exD c3initP 0).map
        (fun r => r.1.map (fun p => exG.memB c3pt0 p.star)) =
      some [true, true, true, true, true] ∧
    cellOfQuantum 1 c3pt0 = (0, 0) ∧
    c3initP 0 0 = true := by decide

/-- Witness for C3 at a concrete predecessor generation. -/
theorem C3_witness :
    c3s.backstep exG exQ false (-1) = some c3stepped ∧
    c3s.get_predecessors exG exQ exD c3initP 0 = some c3pair ∧
    ∀ p ∈ c3pair.1, p.star = c3stepped.star ∨
      ∃ c, c3initP c.1 c.2 = false ∧ p.star = exG.makeQstar c3stepped.star c :=
  ⟨by decide, by decide,
   (C3_initial_cells_excluded exG exQ exD c3initP).2 c3s c3stepped 0 c3pair.1 c3pair.2
     (by decide) (by decide)⟩

/-- C8: the quantized range is, per axis, the floor of the true minimum
and the ceiling of the true maximum of the own-to-intruder displacement
(dx = x_int - x_own; dy = 0 - y_own) over the polytope, divided by the
position quantum, each bound obtained by a directional optimization; the
returned integer cell range is enumerated inclusively at both ends. -/
theorem C8_qrange_floor_ceil {M V B W : Type} (G : Geometry M V B W) (Q : Quanta)
    (s : State M V B W) (dxmin dxmax dymin dymax : ℚ)
    (h1 : MinVecSound G s.star dxVec) (h2 : MinVecSound G s.star (negVec dxVec))
    (h3 : MinVecSound G s.star dyVec) (h4 : MinVecSound G s.star (negVec dyVec))
    (hdx1 : IsLeast (dotSet G s.star dxVec) dxmin)
    (hdx2 : IsGreatest (dotSet G s.star dxVec) dxmax)
    (hdy1 : IsLeast (dotSet G s.star dyVec) dymin)
    (hdy2 : IsGreatest (dotSet G s.star dyVec) dymax) :
    s.get_dx_dy_qrange G Q =
      ((⌊dxmin / Q.pos⌋, ⌈dxmax / Q.pos⌉), (⌊dymin / Q.pos⌋, ⌈dymax / Q.pos⌉)) ∧
    (∀ k : Int, k ∈ intRange ⌊dxmin / Q.pos⌋ ⌈dxmax / Q.pos⌉ ↔
      ⌊dxmin / Q.pos⌋ ≤ k ∧ k ≤ ⌈dxmax / Q.pos⌉) ∧
    (∀ k : Int, k ∈ intRange ⌊dymin / Q.pos⌋ ⌈dymax / Q.pos⌉ ↔
      ⌊dymin / Q.pos⌋ ≤ k ∧ k ≤ ⌈dymax / Q.pos⌉) := by
  have emin : ∀ (v : StarVec) (m : ℚ), MinVecSound G s.star v →
      IsLeast (dotSet G s.star v) m → dot v (G.minimizeVec s.star v) = m := by
    intro v m hv hm
    apply le_antisymm
    · obtain ⟨p, hp, hd⟩ := hm.1
      rw [← hd]
      exact hv.2 p hp
    · exact hm.2 ⟨G.minimizeVec s.star v, hv.1, rfl⟩
  have emax : ∀ (v : StarVec) (m : ℚ), MinVecSound G s.star (negVec v) →
      IsGreatest (dotSet G s.star v) m → dot v (G.minimizeVec s.star (negVec v)) = m := by
    intro v m hv hm
    apply le_antisymm
    · exact hm.2 ⟨G.minimizeVec s.star (negVec v), hv.1, rfl⟩
    · obtain ⟨p, hp, hd⟩ := hm.1
      have hle := hv.2 p hp
      rw [dot_negVec, dot_negVec] at hle
      linarith [hd ▸ hle]
  refine ⟨?_, fun k => mem_intRange, fun k => mem_intRange⟩
  unfold State.get_dx_dy_qrange
  rw [emin dxVec dxmin h1 hdx1, emax dxVec dxmax h2 hdx2,
    emin dyVec dymin h3 hdy1, emax dyVec dymax h4 hdy2]

/-- Witness for C8 at the singleton concrete polytope. -/
theorem C8_witness :
    MinVecSound exG c8star dxVec ∧ IsLeast (dotSet exG c8star dxVec) (dot dxVec c8pt) ∧
    c8s.get_dx_dy_qrange exG exQ =
      ((⌊dot dxVec c8pt / exQ.pos⌋, ⌈dot dxVec c8pt / exQ.pos⌉),
       (⌊dot dyVec c8pt / exQ.pos⌋, ⌈dot dyVec c8pt / exQ.pos⌉)) :=
  ⟨c8minsound dxVec, c8least dxVec,
   (C8_qrange_floor_ceil exG exQ c8s (dot dxVec c8pt) (dot dxVec c8pt)
      (dot dyVec c8pt) (dot dyVec c8pt)
      (c8minsound dxVec) (c8minsound (negVec dxVec))
      (c8minsound dyVec) (c8minsound (negVec dyVec))
      (c8least dxVec) (c8greatest dxVec) (c8least dyVec) (c8greatest dyVec)).1⟩

/-- C1: get_predecessors backsteps once and, for every candidate previous
command 0..4 over the enumerated quantized cells, follows the four-case
decision policy in priority order: no matching cell → nothing emitted; no
mismatching cell → exactly one predecessor, the stepped state with the
candidate appended and no geometric restriction; every mismatching cell's
restriction infeasible → the same single unrestricted predecessor;
otherwise one predecessor per matching cell with feasible restriction,
each carrying the restricted polytope, its witness, and the candidate
appended to its own history copy, infeasible restrictions silently
dropped. -/
theorem C1_four_case_policy {M V B W : Type} (G : Geometry M V B W) (Q : Quanta)
    (D : Decision) (initP : Int → Int → Bool) (s stepped : State M V B W)
    (h : s.backstep G Q false (-1) = some stepped)
    (prev_cmd : Int) (hpc : 0 ≤ prev_cmd ∧ prev_cmd ≤ 4) (nid nid0 : Nat) :
    (s.get_predecessors G Q D initP nid0 =
      some (runCmds G D stepped
        (enumCells initP (stepped.get_dx_dy_qrange G Q).1 (stepped.get_dx_dy_qrange G Q).2)
        [0, 1, 2, 3, 4] nid0)) ∧
    ∀ cells : List (Int × Int),
      (matchCells D stepped prev_cmd cells = [] →
        (predsForCmd G D stepped cells prev_cmd nid).1 = []) ∧
      (matchCells D stepped prev_cmd cells ≠ [] →
        mismatchCells D stepped prev_cmd cells = [] →
        (predsForCmd G D stepped cells prev_cmd nid).1 =
          [{ stepped with alpha_prev_list := stepped.alpha_prev_list ++ [prev_cmd],
                          state_id := nid }]) ∧
      (matchCells D stepped prev_cmd cells ≠ [] →
        ((mismatchCells D stepped prev_cmd cells).all
          (fun c => (G.isFeasible (G.makeQstar stepped.star c)).isNone)) = true →
        (predsForCmd G D stepped cells prev_cmd nid).1 =
          [{ stepped with alpha_prev_list := stepped.alpha_prev_list ++ [prev_cmd],
                          state_id := nid }]) ∧
      (matchCells D stepped prev_cmd cells ≠ [] →
        ¬ (((mismatchCells D stepped prev_cmd cells).all
          (fun c => (G.isFeasible (G.makeQstar stepped.star c)).isNone)) = true) →
        ((predsForCmd G D stepped cells prev_cmd nid).1).map predView =
          (matchCells D stepped prev_cmd cells).filterMap
            (fun c => (G.isFeasible (G.makeQstar stepped.star c)).map
              (fun w => (G.makeQstar stepped.star c, w,
                stepped.alpha_prev_list ++ [prev_cmd])))) := by
  constructor
  · simp [State.get_predecessors, h]
  · intro cells
    refine ⟨?_, ?_, ?_, ?_⟩
    · intro hm
      simp [predsForCmd, hm]
    · intro hm hmm
      simp [predsForCmd, isEmpty_false_of_ne_nil hm, hmm, copyAppend_none]
    · intro hm hall
      cases hE : (mismatchCells D stepped prev_cmd cells).isEmpty
      · simp [predsForCmd, isEmpty_false_of_ne_nil hm, hE, hall, copyAppend_none]
      · simp [predsForCmd, isEmpty_false_of_ne_nil hm, hE, copyAppend_none]
    · intro hm hnall
      have hmm : mismatchCells D stepped prev_cmd cells ≠ [] := by
        intro he
        apply hnall
        rw [he]
        rfl
      have hred : (predsForCmd G D stepped cells prev_cmd nid).1 =
          (splitLoop G stepped prev_cmd (matchCells D stepped prev_cmd cells) nid).1 := by
        simp [predsForCmd, isEmpty_false_of_ne_nil hm, isEmpty_false_of_ne_nil hmm, hnall]
      rw [hred]
      exact splitLoop_view (matchCells D stepped prev_cmd cells) nid

/-- Witness for C1 at a concrete state and candidate command. -/
theorem C1_witness :
    c3s.backstep exG exQ false (-1) = some c3stepped ∧
    ((0 : Int) ≤ 1 ∧ (1 : Int) ≤ 4) ∧
    c3s.get_predecessors exG exQ exD c3initP 0 =
      some (runCmds exG exD c3stepped
        (enumCells c3initP (c3stepped.get_dx_dy_qrange exG exQ).1
          (c3stepped.get_dx_dy_qrange exG exQ).2) [0, 1, 2, 3, 4] 0) :=
  ⟨by decide, by decide,
   (C1_four_case_policy exG exQ exD c3initP c3s c3stepped (by decide) 1 (by decide) 0 0).1⟩

/-- C2: a produced predecessor is recorded as the counterexample exactly
when its two most recent commands are both 0 (clear) and its witness
point, mapped to range coordinates, gives squared separation beyond
10000², and it is the first such predecessor in emission order; on that
first satisfying predecessor the search returns immediately with the
(value-)copied predecessor as the result's counterexample and the pop
count incremented once, independently of the remaining frontier. -/
theorem C2_counterexample_policy {M V B W : Type} (G : Geometry M V B W) (Q : Quanta)
    (D : Decision) (initP : Int → Int → Bool) (s : State M V B W) (nid : Nat)
    (preds : List (State M V B W)) (nid2 : Nat)
    (h : s.get_predecessors G Q D initP nid = some (preds, nid2))
    (rest : List (State M V B W)) :
    (∀ p st, processPreds G rest preds = .found p st →
      isCexB G p = true ∧
      ∃ pre post, preds = pre ++ p :: post ∧ ∀ r ∈ pre, isCexB G r = false) ∧
    (∀ pre p post, preds = pre ++ p :: post → (∀ r ∈ pre, isCexB G r = false) →
      isCexB G p = true → ∃ st, processPreds G rest preds = .found p st) ∧
    (∀ p st, processPreds G rest preds = .found p st →
      ∀ (fuel popped : Nat) (dead : Finset (List Int)) (rest2 : List (State M V B W)),
        searchLoop G Q D initP (fuel + 1) (s :: rest2) popped dead nid =
          some ⟨some p, popped + 1, dead.card⟩) := by
  have hsome : ∀ p ∈ preds, (last2 p.alpha_prev_list).isSome = true := by
    obtain ⟨stepped, hb, hsa, hmem⟩ := mem_get_predecessors h
    have hne : s.alpha_prev_list ≠ [] := (backstep_backward_elim hb).2.1
    intro p hp
    obtain ⟨pc, _, hal, _⟩ := hmem p hp
    rw [hal]
    exact last2_append pc hne
  refine ⟨?_, ?_, ?_⟩
  · intro p st hf
    exact processPreds_found_elim hf
  · intro pre p post heq hpre hp
    rw [heq]
    exact processPreds_found_intro pre p post rest hpre
      (fun x hx => hsome x (by rw [heq]; exact List.mem_append_left _ hx)) hp
  · intro p st hf fuel popped dead rest2
    obtain ⟨hcex, pre, post, heq, hpre⟩ := processPreds_found_elim hf
    have hf2e : ∃ st2, processPreds G rest2 preds = .found p st2 := by
      rw [heq]
      exact processPreds_found_intro pre p post rest2 hpre
        (fun x hx => hsome x (by rw [heq]; exact List.mem_append_left _ hx)) hcex
    obtain ⟨st2, hf2⟩ := hf2e
    simp [searchLoop, h, hf2]

/-- Witness for C2 at a concrete state whose first produced predecessor has
two trailing clear commands and witness separation 20000. -/
theorem C2_witness :
    c2s.get_predecessors exG exQ exD c2initP 0 = some c2pair ∧
    ∀ p st, processPreds exG [] c2pair.1 = .found p st →
      ∀ (fuel popped : Nat) (dead : Finset (List Int))
        (rest2 : List (State Unit Unit (List Pt) Pt)),
        searchLoop exG exQ exD c2initP (fuel + 1) (c2s :: rest2) popped dead 0 =
          some ⟨some p, popped + 1, dead.card⟩ :=
  ⟨by decide,
   (C2_counterexample_policy exG exQ exD c2initP c2s 0 c2pair.1 c2pair.2 (by decide) []).2.2⟩

end Backreach
